import Mathlib

/-!
A shallow embedding of `testflows/uexpect/uexpect.py` (the TestFlows-uExpect
session controller).  Python strings become Lean `String` with character
indices (Python slicing `s[a:b]` is `(s.take b).drop a`), the mutable `IO`
object becomes an explicit `Session` record threaded through the operations,
the thread-safe handoff `Queue` becomes a `List QItem` of the items the queue
will deliver in FIFO order, and real time is abstracted: every waiting
primitive is driven by an explicit trace of its outcomes (elapsed amounts are
natural numbers, `max(x - e, 0)` is truncated subtraction on `Nat`).
Exceptions become explicit result constructors.  A compiled regular expression
is abstracted as its `search` function `String → Option (Nat × Nat)` giving
the character start/end of the leftmost match, the only part of `re` the code
uses; a literal pattern (the `escape=True` path) is realised concretely by
`litFind`.
-/

namespace UExpect

/-- Exception values that travel through the system: `IOError("closed")`
raised by `write`/`read` on a closed session, `OSError` with an errno raised
by `os.read` in the reader thread, and any other `BaseException` (abstracted
by a numeric tag). -/
inductive Exc where
  | ioClosed : Exc
  | osError (errno : Nat) : Exc
  | other (tag : Nat) : Exc
  deriving DecidableEq, Repr

/-- An item of the handoff queue: a decoded text chunk pushed by the reader
thread, or a fault (an exception object pushed by the reader thread). -/
inductive QItem where
  | chunk (s : String) : QItem
  | fault (e : Exc) : QItem
  deriving DecidableEq, Repr

/-- `IO.Logger`: wraps an external sink, prefixing every mirrored line.
The underlying sink is modelled by the text accumulated in `out` (the sink's
received content); `pfx` is the `_prefix` attribute (`prefix` is reserved in
Lean). -/
structure Logger where
  pfx : String
  out : String
  deriving DecidableEq, Repr

/-- `IO.Logger.write`: `if not data: return` else write
`data.replace('\n', '\n' + self._prefix)` to the underlying sink. -/
def Logger.write (l : Logger) (data : String) : Logger :=
  if data = "" then l
  else { l with out := l.out ++ data.replace "\n" ("\n" ++ l.pfx) }

/-- `IO.Logger.__init__`: store the sink and the given prefix, then
`self.write(self._prefix)`.  `sink` is the content already held by the sink
object being wrapped. -/
def Logger.init (sink : String) (pfx : String) : Logger :=
  Logger.write { pfx := pfx, out := sink } pfx

/-- The mutable state of an `IO` session object (`IO.__init__`).  OS side
effects are recorded in ghost fields: `masterOut` is the text written to the
pty master, `killEventSet`/`groupSignaled`/`procKilled`/`procTerminated`/
`masterClosed` record the teardown actions of `close`. -/
structure Session where
  buffer : Option String
  before : Option String
  after : Option String
  matched : Option (Nat × Nat)
  _timeout : Option Nat
  _logger : Option Logger
  _logger_buffer_pos : Nat
  _eol : String
  _closed : Bool
  masterOut : String
  killEventSet : Bool
  groupSignaled : Bool
  procKilled : Bool
  procTerminated : Bool
  masterClosed : Bool
  deriving DecidableEq, Repr

/-- `IO.__init__(process, master, queue, reader)`: fresh session state. -/
def Session.init : Session where
  buffer := none
  before := none
  after := none
  matched := none
  _timeout := none
  _logger := none
  _logger_buffer_pos := 0
  _eol := ""
  _closed := false
  masterOut := ""
  killEventSet := false
  groupSignaled := false
  procKilled := false
  procTerminated := false
  masterClosed := false

/-- `IO.logger(logger=None, prefix='')`: `if logger:` install
`self.Logger(logger, prefix=prefix)`; always `return self._logger`.
The sink argument is `some sink` (a sink object, truthy) or `none`. -/
def Session.logger (s : Session) (lg : Option String) (pfx : String) :
    Session × Option Logger :=
  match lg with
  | some sink =>
      let s := { s with _logger := some (Logger.init sink pfx) }
      (s, s._logger)
  | none => (s, s._logger)

/-- `IO.timeout(timeout=None)`: `if timeout:` (Python truthiness: `None` and
`0` are falsy) update `self._timeout`; always `return self._timeout`. -/
def Session.timeout (s : Session) (t : Option Nat) : Session × Option Nat :=
  match t with
  | some v =>
      if v ≠ 0 then
        let s := { s with _timeout := some v }
        (s, s._timeout)
      else (s, s._timeout)
  | none => (s, s._timeout)

/-- `IO.eol(eol=None)`: `if eol:` (Python truthiness: `None` and `''` are
falsy) update `self._eol`; always `return self._eol`. -/
def Session.eol (s : Session) (e : Option String) : Session × String :=
  match e with
  | some v =>
      if v ≠ "" then
        let s := { s with _eol := v }
        (s, s._eol)
      else (s, s._eol)
  | none => (s, s._eol)

/-- `IO.close(force=True)`: under the lock, `if not self._closed:` set the
reader kill event, `pkill -TERM` the process group, kill (or terminate) the
process, close the pty master, write a trailing newline to the logger and
flush it; `finally: self._closed = True`.  A second call is a no-op. -/
def Session.close (s : Session) (force : Bool := true) : Session :=
  if s._closed then s
  else
    let s := { s with killEventSet := true, groupSignaled := true }
    let s := if force then { s with procKilled := true }
             else { s with procTerminated := true }
    let s := { s with masterClosed := true }
    let s := match s._logger with
             | some l => { s with _logger := some (l.write "\n") }
             | none => s
    { s with _closed := true }

/-- `IO.write(data)`: under the lock, raise `IOError("closed")` if closed,
else `os.write(self.master, data.encode("utf-8"))` (returning the number of
bytes written, i.e. the UTF-8 byte size) and `termios.tcdrain`. -/
def Session.write (s : Session) (data : String) : Except Exc (Session × Nat) :=
  if s._closed then .error .ioClosed
  else .ok ({ s with masterOut := s.masterOut ++ data }, data.utf8ByteSize)

/-- `IO.send(data, eol=None, delay=None)`: `if eol is None: eol = self._eol`,
optionally `time.sleep(delay)`, then `return self.write(data + eol)`. -/
def Session.send (s : Session) (data : String) (eol : Option String := none)
    (delay : Option Nat := none) : Except Exc (Session × Nat) :=
  let eolv := match eol with
              | none => s._eol
              | some e => e
  let _ := delay
  Session.write s (data ++ eolv)

/-- How `read`'s inner `while` loop ended: the queue delivered no (further)
item within the wait (`queue.Empty`), a dequeued item was an exception
(`raise d`), or `break` because `data` became non-empty. -/
inductive ReadLoopEnd where
  | empty : ReadLoopEnd
  | fault (e : Exc) : ReadLoopEnd
  | broke : ReadLoopEnd
  deriving DecidableEq, Repr

/-- The inner loop of `IO.read`: `while timeleft >= 0:` (always true, since
`timeleft = max(..., 0)`) repeatedly `queue.get(timeout=timeleft)` — modelled
as taking the head of the list of items the queue delivers during the call,
`queue.Empty` once the list is exhausted — re-raising a dequeued exception,
accumulating `data += d` and breaking once `data` is non-empty.  Returns the
loop end, the accumulated data and the items left in the queue.  The
`timeleft` bookkeeping only bounds each wait and never exits the loop, so it
is dropped here. -/
def readLoop : List QItem → String → ReadLoopEnd × String × List QItem
  | [], data => (.empty, data, [])
  | .fault e :: rest, _ => (.fault e, "", rest)
  | .chunk d :: rest, data =>
      let data := data ++ d
      if data ≠ "" then (.broke, data, rest)
      else readLoop rest data

/-- The result of `IO.read`: returned data, or one of the exceptions it can
raise (`IOError("closed")`, `TimeoutError(timeout)`, a re-raised reader
fault). -/
inductive RResult where
  | ok (data : String) : RResult
  | closedErr : RResult
  | timeoutErr (timeout : Nat) : RResult
  | faultErr (e : Exc) : RResult
  deriving DecidableEq, Repr

/-- `IO.read(timeout=0, raise_exception=False)`: under the lock, raise
`IOError("closed")` if closed; run the accumulation loop; on `queue.Empty`
return the data if any, else raise `TimeoutError(timeout)` when
`raise_exception`; after a `break`, `if not data and raise_exception: raise
TimeoutError(timeout)`; return the data.  Also returns the items left in the
queue. -/
def Session.read (s : Session) (queue : List QItem) (timeout : Nat := 0)
    (raiseExc : Bool := false) : RResult × List QItem :=
  if s._closed then (.closedErr, queue)
  else
    match readLoop queue "" with
    | (.fault e, _, rest) => (.faultErr e, rest)
    | (.empty, data, rest) =>
        if data ≠ "" then (.ok data, rest)
        else if raiseExc then (.timeoutErr timeout, rest)
        else (.ok data, rest)
    | (.broke, data, rest) =>
        if data = "" ∧ raiseExc then (.timeoutErr timeout, rest)
        else (.ok data, rest)

/-- One outcome of `os.read(out, 65536)` in the reader thread, with the
incremental decode already applied to the returned bytes (`bytes` carries
`decoder.decode(data)`), or the exception raised: an `OSError` with its errno
(caught by `except OSError`), or any other `BaseException` — necessarily a
non-OSError, i.e. `Exc.other tag` (caught by `except BaseException`). -/
inductive ReadOutcome where
  | bytes (txt : String) : ReadOutcome
  | oserr (errno : Nat) : ReadOutcome
  | exc (tag : Nat) : ReadOutcome
  deriving DecidableEq, Repr

/-- How the `_reader` thread left its loop: still looping when the outcome
trace ended, `return`ed cleanly, or re-raised an exception inside the thread
(after having pushed it onto the queue). -/
inductive ReaderExit where
  | running : ReaderExit
  | returned : ReaderExit
  | raised (e : Exc) : ReaderExit
  deriving DecidableEq, Repr

/-- `_reader(out, queue, kill_event, ...)`: loop reading and decoding, putting
each decoded chunk on the queue; on `OSError e`: `queue.put(e)` then `return`
if `e.errno in (5, 9)` else `raise`; on any other `BaseException e`:
`queue.put(e)` then `return` if `kill_event.is_set()` else `raise`.
`killSet` is the kill event's state when the exception is handled; the result
is the sequence of items put on the queue and how the thread exited. -/
def readerRun (killSet : Bool) : List ReadOutcome → List QItem × ReaderExit
  | [] => ([], .running)
  | .bytes txt :: rest =>
      let (q, ex) := readerRun killSet rest
      (.chunk txt :: q, ex)
  | .oserr n :: _ =>
      ([.fault (.osError n)], if n = 5 ∨ n = 9 then .returned else .raised (.osError n))
  | .exc tag :: _ =>
      ([.fault (.other tag)], if killSet then .returned else .raised (.other tag))

/-- A compiled pattern, abstracted as the `search(buffer, 0)` function of a
compiled regular expression: the character start/end positions of the
leftmost match, or `none`. -/
abbrev Pattern := String → Option (Nat × Nat)

/-- First character index at which `pat` occurs as a contiguous sublist of
`s`, scanning left to right. -/
def findSubIdx (pat : List Char) : List Char → Option Nat
  | [] => if pat.isPrefixOf [] then some 0 else none
  | c :: rest =>
      if pat.isPrefixOf (c :: rest) then some 0
      else (findSubIdx pat rest).map (· + 1)

/-- The search function of a literal (escaped) pattern: leftmost occurrence
of the literal text, as `re.compile(re.escape(pat)).search(s, 0)` would find
it. -/
def litFind (pat : String) : Pattern := fun s =>
  (findSubIdx pat.data s.data).map (fun i => (i, i + pat.length))

/-- `sys.maxsize`. -/
def maxsize : Nat := 2 ^ 63 - 1

/-- The outcome of one `self.read(timeout=min(timeleft, 0.1),
raise_exception=True)` call inside `expect`'s loop, as seen by `expect`:
data returned, `TimeoutError` raised, or a reader fault re-raised.  `elapsed`
is the time the call took (`time.time() - start_time`). -/
inductive ReadEvent where
  | data (d : String) (elapsed : Nat) : ReadEvent
  | rtimeout (elapsed : Nat) : ReadEvent
  | rfault (e : Exc) : ReadEvent
  deriving DecidableEq, Repr

/-- The `ExpectTimeoutError(pattern, timeout, buffer)` exception. -/
structure ExpectTimeoutError where
  pattern : Pattern
  timeout : Option Nat
  buffer : Option String

/-- How `expect` resolved: `return self.match` after a match, `return` with
no match (probe timeout), `raise ExpectTimeoutError(...)`, the
`IOError("closed")` propagating out of `read`, a reader fault propagating out
of `read`, or the event trace ran out before resolution. -/
inductive EResult where
  | ret (m : Option (Nat × Nat)) : EResult
  | timeoutErr (e : ExpectTimeoutError) : EResult
  | closedErr : EResult
  | faultErr (e : Exc) : EResult
  | stuck : EResult

/-- The final state of an `expect` call: session state, result, and the read
events it did not consume. -/
structure ExpectOutcome where
  state : Session
  result : EResult
  rest : List ReadEvent

/-- `if self._logger:` write to the logger (no-op otherwise). -/
def loggerWrite (s : Session) (data : String) : Session :=
  match s._logger with
  | some l => { s with _logger := some (l.write data) }
  | none => s

/-- The match branch of `expect`'s loop body: mirror
`self.buffer[self._logger_buffer_pos:match.end()]` to the logger, set
`self.after = self.buffer[match.start():match.end()]`,
`self.before = self.buffer[:match.start()]`, truncate
`self.buffer = self.buffer[match.end():]`, reset the cursor, record the
match, `break`. -/
def matchFinalize (s : Session) (buf : String) (a b : Nat) : Session :=
  let s := { s with matched := some (a, b) }
  let s := match s._logger with
           | some l => { s with _logger := some (l.write ((buf.take b).drop s._logger_buffer_pos)) }
           | none => s
  { s with
    after := some ((buf.take b).drop a)
    before := some (buf.take a)
    buffer := some (buf.drop b)
    _logger_buffer_pos := 0 }

/-- The no-match branch of `expect`'s loop body: `elif self._logger and not
expect_timeout:` mirror `self.buffer[self._logger_buffer_pos:]` and advance
the cursor to the buffer's end. -/
def noMatchMirror (expectTimeout : Bool) (s : Session) (buf : String) : Session :=
  if s._logger.isSome ∧ ¬expectTimeout then
    let s := loggerWrite s (buf.drop s._logger_buffer_pos)
    { s with _logger_buffer_pos := buf.length }
  else s

/-- The `timeleft <= 0` branch of `expect`'s `except TimeoutError` handler:
mirror `(self.buffer or '')[self._logger_buffer_pos:] + '\n'` and flush
(unless probing), build `ExpectTimeoutError(pattern, timeout, self.buffer)`,
set `self.before = self.buffer`, `self.after = None`; unless probing clear
the buffer and cursor; `return` if probing else `raise exception`. -/
def timeoutFinalize (pat : Pattern) (timeout : Option Nat)
    (expectTimeout : Bool) (s : Session) (rest : List ReadEvent) : ExpectOutcome :=
  let s := if s._logger.isSome ∧ ¬expectTimeout then
             loggerWrite s (((s.buffer.getD "").drop s._logger_buffer_pos) ++ "\n")
           else s
  let e : ExpectTimeoutError := ⟨pat, timeout, s.buffer⟩
  let s := { s with before := s.buffer, after := none }
  let s := if ¬expectTimeout then { s with buffer := none, _logger_buffer_pos := 0 }
           else s
  if expectTimeout then ⟨s, .ret none, rest⟩
  else ⟨s, .timeoutErr e, rest⟩

/-- Step 1 of `expect`'s loop body: `if self.buffer is not None:` search it;
on a match finalize and `break` (right component, carrying the result); on no
match mirror the unmirrored buffer (unless probing) and fall through to the
read (left component). -/
def expectSearch (pat : Pattern) (expectTimeout : Bool) (s : Session) :
    Session ⊕ (Session × EResult) :=
  match s.buffer with
  | some buf =>
      match pat buf with
      | some (a, b) => .inr (matchFinalize s buf a b, .ret (some (a, b)))
      | none => .inl (noMatchMirror expectTimeout s buf)
  | none => .inl s

/-- `self.buffer = (self.buffer + data) if self.buffer else data` (Python
truthiness: `None` and `''` both take the `else` branch). -/
def appendBuffer (s : Session) (d : String) : Session :=
  { s with buffer := some (match s.buffer with
                           | some b => if b ≠ "" then b ++ d else d
                           | none => d) }

/-- The `while True:` loop of `IO.expect`.  Each iteration searches the
retained buffer (terminal on a match) and otherwise consumes the next read
event: the `IOError("closed")` raised by `read` on a closed session and any
reader fault propagate (only `TimeoutError` is caught), a read timeout
decrements `timeleft` (terminal once it reaches 0), returned data decrements
`timeleft` and is appended to the buffer. -/
def expectLoop (pat : Pattern) (timeout : Option Nat) (expectTimeout : Bool) :
    Session → Nat → List ReadEvent → ExpectOutcome
  | s, _, [] =>
      match expectSearch pat expectTimeout s with
      | .inr (s', r) => ⟨s', r, []⟩
      | .inl s' =>
          if s'._closed then ⟨s', .closedErr, []⟩ else ⟨s', .stuck, []⟩
  | s, timeleft, ev :: rest =>
      match expectSearch pat expectTimeout s with
      | .inr (s', r) => ⟨s', r, ev :: rest⟩
      | .inl s' =>
          if s'._closed then ⟨s', .closedErr, ev :: rest⟩
          else
            match ev with
            | .rfault e => ⟨s', .faultErr e, rest⟩
            | .rtimeout elapsed =>
                if timeleft - elapsed = 0 then
                  timeoutFinalize pat timeout expectTimeout s' rest
                else expectLoop pat timeout expectTimeout s' (timeleft - elapsed) rest
            | .data d elapsed =>
                expectLoop pat timeout expectTimeout
                  (if d ≠ "" then appendBuffer s' d else s')
                  (timeleft - elapsed) rest

/-- `IO.expect(pattern, timeout=None, escape=False, expect_timeout=False)`:
reset `match`/`before`/`after`, fall back to the session default timeout,
start `timeleft` (using `sys.maxsize` when unbounded) and run the loop.
The compiled pattern is given directly (`escape` is the choice of `litFind`
as the pattern). -/
def Session.expect (s : Session) (pat : Pattern) (timeout : Option Nat := none)
    (expectTimeout : Bool := false) (events : List ReadEvent := []) : ExpectOutcome :=
  let s := { s with matched := none, before := none, after := none }
  let timeout := match timeout with
                 | none => s._timeout
                 | some t => some t
  let timeleft := match timeout with
                  | none => maxsize
                  | some t => t
  expectLoop pat timeout expectTimeout s timeleft events

/-- A `close` call on an already-closed session is the identity
(`if not self._closed:` guard). -/
lemma close_of_closed (s : Session) (f : Bool) (h : s._closed = true) :
    Session.close s f = s := by
  simp [Session.close, h]

/-- `close` always leaves the closed flag set (`finally: self._closed =
True`). -/
lemma close_sets_closed (s : Session) (f : Bool) :
    (Session.close s f)._closed = true := by
  by_cases h : s._closed
  · rw [close_of_closed s f h]; exact h
  · cases f <;> cases hl : s._logger <;> simp [Session.close, h, hl]

/-- C6: `close()` is idempotent: the first call performs the cleanup steps
(kill event, process-group signal, kill or terminate per `force`, close the
master) and sets the closed flag; every subsequent call observes the flag and
does nothing, and `close` never raises (it is a total function on sessions). -/
theorem c6_close_idempotent (s : Session) (f f' : Bool) :
    (Session.close s f)._closed = true ∧
    Session.close (Session.close s f) f' = Session.close s f ∧
    (s._closed = true → Session.close s f = s) ∧
    (s._closed = false →
      (Session.close s f).killEventSet = true ∧
      (Session.close s f).groupSignaled = true ∧
      (Session.close s f).masterClosed = true ∧
      (f = true → (Session.close s f).procKilled = true) ∧
      (f = false → (Session.close s f).procTerminated = true)) := by
  refine ⟨close_sets_closed s f,
          close_of_closed (Session.close s f) f' (close_sets_closed s f),
          close_of_closed s f, ?_⟩
  intro h
  cases f <;> cases hl : s._logger <;>
    simp [Session.close, h, hl]

/-- `c6_close_idempotent` instantiated on a fresh session with `force`. -/
theorem c6_witness : (Session.close Session.init true).procKilled = true :=
  ((c6_close_idempotent Session.init true true).2.2.2 rfl).2.2.2.1 rfl

/-- C8: `send` appends the end-of-line marker exactly once — the explicit
override when given, the session default otherwise — and delegates to `write`
of the concatenation, returning `write`'s byte count; on an open session the
pty master receives exactly `data ++ marker` appended once for this call. -/
theorem c8_send_appends_eol_once (s : Session) (data : String)
    (eol : Option String) (delay : Option Nat) :
    Session.send s data eol delay = Session.write s (data ++ eol.getD s._eol) ∧
    (s._closed = false →
      Session.send s data eol delay =
        .ok ({ s with masterOut := s.masterOut ++ (data ++ eol.getD s._eol) },
             (data ++ eol.getD s._eol).utf8ByteSize)) := by
  constructor
  · cases eol <;> rfl
  · intro h
    cases eol <;> simp [Session.send, Session.write, h]

/-- `c8_send_appends_eol_once` instantiated: one `send("foo")` with default
eol `"\r"` writes exactly `"foo\r"`. -/
theorem c8_witness :
    Session.send { Session.init with _eol := "\r" } "foo" none none =
      .ok ({ { Session.init with _eol := "\r" } with masterOut := "" ++ ("foo" ++ "\r") },
           ("foo" ++ "\r").utf8ByteSize) :=
  (c8_send_appends_eol_once { Session.init with _eol := "\r" } "foo" none none).2 rfl

/-- C9 (counterexample): the claim predicts that once a sink has been
installed, a later call passing a sink does not construct a new adapter, i.e.
the stored adapter is unchanged; in the code `IO.logger` re-wraps on every
call with a truthy sink, so installing with prefixes `"A"` then `"B"` changes
the stored adapter. -/
theorem c9_counterexample :
    (Session.logger (Session.logger Session.init (some "") "A").1 (some "") "B").1._logger ≠
      (Session.logger Session.init (some "") "A").1._logger := by
  decide

/-- C9 (amended): `IO.logger` wraps the sink in a fresh `Logger` adapter on
every call that passes a sink, replacing any previously installed adapter;
only a call with no sink leaves the session unchanged and returns the current
adapter. -/
theorem c9_logger_rewraps_each_call (s : Session) (sink pfx : String) :
    Session.logger s (some sink) pfx =
      ({ s with _logger := some (Logger.init sink pfx) }, some (Logger.init sink pfx)) ∧
    Session.logger s none pfx = (s, s._logger) :=
  ⟨rfl, rfl⟩

/-- C10: calling `timeout` with a falsy value (`None` or `0`) or `eol` with a
falsy value (`None` or `''`) leaves the stored configuration unchanged and
returns the previously stored value; only a truthy argument updates it. -/
theorem c10_falsy_accessor_args (s : Session) :
    Session.timeout s none = (s, s._timeout) ∧
    Session.timeout s (some 0) = (s, s._timeout) ∧
    (∀ n : Nat, n ≠ 0 →
      Session.timeout s (some n) = ({ s with _timeout := some n }, some n)) ∧
    Session.eol s none = (s, s._eol) ∧
    Session.eol s (some "") = (s, s._eol) ∧
    (∀ v : String, v ≠ "" →
      Session.eol s (some v) = ({ s with _eol := v }, v)) := by
  refine ⟨rfl, by simp [Session.timeout], ?_, rfl, by simp [Session.eol], ?_⟩
  · intro n hn; simp [Session.timeout, hn]
  · intro v hv; simp [Session.eol, hv]

/-- `c10_falsy_accessor_args` instantiated: a truthy timeout updates. -/
theorem c10_witness :
    Session.timeout Session.init (some 5) =
      ({ Session.init with _timeout := some 5 }, some 5) :=
  (c10_falsy_accessor_args Session.init).2.2.1 5 (by decide)

/-- C1: when the retained buffer contains a match of the pattern, `expect`
returns the match and establishes `before` = text preceding the match,
`after` = the matched text, the buffer is truncated to exactly the text
following the match end, and the logger cursor is reset to zero; no read
event is consumed, so a match fully contained in previously buffered data is
returned without performing any new read. -/
theorem c1_expect_match_in_buffer (s : Session) (pat : Pattern)
    (t : Option Nat) (p : Bool) (evs : List ReadEvent) (buf : String)
    (a b : Nat) (hb : s.buffer = some buf) (hm : pat buf = some (a, b)) :
    (Session.expect s pat t p evs).result = .ret (some (a, b)) ∧
    (Session.expect s pat t p evs).state.before = some (buf.take a) ∧
    (Session.expect s pat t p evs).state.after = some ((buf.take b).drop a) ∧
    (Session.expect s pat t p evs).state.buffer = some (buf.drop b) ∧
    (Session.expect s pat t p evs).state._logger_buffer_pos = 0 ∧
    (Session.expect s pat t p evs).state.matched = some (a, b) ∧
    (Session.expect s pat t p evs).rest = evs := by
  unfold Session.expect
  cases evs <;> cases hl : s._logger <;>
    simp [expectLoop, expectSearch, hb, hm, matchFinalize, hl]

/-- `c1_expect_match_in_buffer` instantiated: buffer `"hello"`, literal
pattern `"ell"`, no read events available at all. -/
theorem c1_witness :
    (Session.expect { Session.init with buffer := some "hello" }
        (litFind "ell") none false []).state.after = some "ell" := by
  have h := (c1_expect_match_in_buffer
    { Session.init with buffer := some "hello" } (litFind "ell")
    none false [] "hello" 1 4 rfl (by decide)).2.2.1
  rw [h]; decide

/-- C2: when the time budget is exhausted without a match (modelled by a
single read timeout whose elapsed time consumes the whole budget, against a
pattern that does not match the retained buffer): without the probe flag,
`expect` raises `ExpectTimeoutError` carrying the pattern, the requested
timeout and the buffer at the time of failure, having set `before` to the
entire retained buffer, `after` to `None`, and cleared the buffer and the
logger cursor; with the probe flag set it returns a non-match without
raising, leaving the retained buffer and logger cursor intact. -/
theorem c2_expect_timeout_exhausted (s : Session) (pat : Pattern)
    (t e : Nat) (p : Bool) (hcl : s._closed = false)
    (hnm : ∀ b, s.buffer = some b → pat b = none) (hte : t ≤ e) :
    (p = false →
      (Session.expect s pat (some t) p [.rtimeout e]).result =
        .timeoutErr ⟨pat, some t, s.buffer⟩ ∧
      (Session.expect s pat (some t) p [.rtimeout e]).state.before = s.buffer ∧
      (Session.expect s pat (some t) p [.rtimeout e]).state.after = none ∧
      (Session.expect s pat (some t) p [.rtimeout e]).state.buffer = none ∧
      (Session.expect s pat (some t) p [.rtimeout e]).state._logger_buffer_pos = 0) ∧
    (p = true →
      (Session.expect s pat (some t) p [.rtimeout e]).result = .ret none ∧
      (Session.expect s pat (some t) p [.rtimeout e]).state.buffer = s.buffer ∧
      (Session.expect s pat (some t) p [.rtimeout e]).state._logger_buffer_pos =
        s._logger_buffer_pos ∧
      (Session.expect s pat (some t) p [.rtimeout e]).state.before = s.buffer ∧
      (Session.expect s pat (some t) p [.rtimeout e]).state.after = none) := by
  have hz : t - e = 0 := Nat.sub_eq_zero_of_le hte
  unfold Session.expect
  cases hb : s.buffer with
  | none =>
      cases p <;> cases hl : s._logger <;>
        simp [expectLoop, expectSearch, hb, hl, hcl, hz,
              noMatchMirror, timeoutFinalize, loggerWrite]
  | some b =>
      have hpb := hnm b hb
      cases p <;> cases hl : s._logger <;>
        simp [expectLoop, expectSearch, hb, hl, hcl, hz, hpb,
              noMatchMirror, timeoutFinalize, loggerWrite]

/-- `c2_expect_timeout_exhausted` instantiated: buffer `"ab"`, a pattern
matching nothing, budget 1 exhausted by an elapsed time of 2, non-probe. -/
theorem c2_witness :
    (Session.expect { Session.init with buffer := some "ab" }
        (fun _ => none) (some 1) false [.rtimeout 2]).state.buffer = none :=
  ((c2_expect_timeout_exhausted { Session.init with buffer := some "ab" }
    (fun _ => none) 1 2 false rfl (fun _ _ => rfl) (by decide)).1 rfl).2.2.2.1

/-- C4 (counterexample): the claim predicts that `expect` on a closed session
fails with a closed-session error regardless of the retained buffer's
content; in the code only `read` checks the closed flag, so on a closed
session whose buffer `"hello"` already matches the literal pattern `"ell"`,
`expect` returns the match instead of failing. -/
theorem c4_counterexample :
    (Session.expect { Session.init with _closed := true, buffer := some "hello" }
        (litFind "ell") none false []).result ≠ EResult.closedErr := by
  have h : (Session.expect { Session.init with _closed := true, buffer := some "hello" }
      (litFind "ell") none false []).result = EResult.ret (some (1, 4)) := by
    have hm : litFind "ell" "hello" = some (1, 4) := by decide
    unfold Session.expect
    simp [expectLoop, expectSearch, matchFinalize, hm]
  rw [h]
  simp

/-- C4 (amended): after `close()`, `write`, `send` and `read` fail with a
closed-session error regardless of their arguments; `expect` fails with a
closed-session error only when it has to read, i.e. when the retained buffer
does not already contain a match — if it does, `expect` returns that match
even though the session is closed. -/
theorem c4_closed_session_ops (s : Session) (h : s._closed = true) :
    (∀ d, Session.write s d = .error .ioClosed) ∧
    (∀ d eo dl, Session.send s d eo dl = .error .ioClosed) ∧
    (∀ qs t r, Session.read s qs t r = (.closedErr, qs)) ∧
    (∀ pat t p evs, (∀ b, s.buffer = some b → pat b = none) →
        (Session.expect s pat t p evs).result = .closedErr) ∧
    (∀ pat t p evs buf a b, s.buffer = some buf → pat buf = some (a, b) →
        (Session.expect s pat t p evs).result = .ret (some (a, b))) := by
  refine ⟨?_, ?_, ?_, ?_, ?_⟩
  · intro d; simp [Session.write, h]
  · intro d eo dl; cases eo <;> simp [Session.send, Session.write, h]
  · intro qs t r; simp [Session.read, h]
  · intro pat t p evs hn
    unfold Session.expect
    cases hb : s.buffer with
    | none =>
        cases evs <;> simp [expectLoop, expectSearch, hb, h, noMatchMirror, loggerWrite]
    | some b =>
        have hpb := hn b hb
        cases evs <;> cases hl : s._logger <;> cases p <;>
          simp [expectLoop, expectSearch, hb, hl, hpb, h, noMatchMirror, loggerWrite]
  · intro pat t p evs buf a b hb hm
    unfold Session.expect
    cases evs <;> simp [expectLoop, expectSearch, hb, hm]

/-- `c4_closed_session_ops` instantiated: `write` on a closed session raises
the closed-session error. -/
theorem c4_witness :
    Session.write { Session.init with _closed := true } "x" = .error .ioClosed :=
  (c4_closed_session_ops { Session.init with _closed := true } rfl).1 "x"

/-- The text a queue item contributes to `data` (`data += d`); a fault
contributes nothing (it is raised instead). -/
def textOf : QItem → String
  | .chunk c => c
  | .fault _ => ""

/-- Concatenation of a list of strings in order. -/
def concatAll : List String → String
  | [] => ""
  | x :: r => x ++ concatAll r

lemma concatAll_all_empty_append (l : List String) (d : String)
    (h : ∀ x ∈ l, x = "") : concatAll (l ++ [d]) = d := by
  induction l with
  | nil => simp [concatAll]
  | cons x r ih =>
      have hx : x = "" := h x (by simp)
      simp [concatAll, hx, ih (fun y hy => h y (by simp [hy]))]

/-- `readLoop` ending in `queue.Empty` consumed the whole queue, which held
only empty chunks, and accumulated nothing. -/
lemma readLoop_empty_end (qs : List QItem) (d : String) (rest : List QItem)
    (h : readLoop qs "" = (.empty, d, rest)) :
    d = "" ∧ rest = [] ∧ ∀ q ∈ qs, q = QItem.chunk "" := by
  induction qs with
  | nil =>
      simp [readLoop] at h
      obtain ⟨hd, hr⟩ := h
      subst hr
      exact ⟨hd.symm, rfl, by simp⟩
  | cons q r ih =>
      cases q with
      | fault e => simp [readLoop] at h
      | chunk c =>
          by_cases hc : c = ""
          · subst hc
            simp [readLoop] at h
            obtain ⟨hd, hr, hall⟩ := ih h
            exact ⟨hd, hr, by simpa using hall⟩
          · simp [readLoop, hc] at h

/-- `readLoop` ending in a re-raised fault consumed only empty chunks before
the fault, which is the next item of the queue. -/
lemma readLoop_fault_end (qs : List QItem) (e : Exc) (d : String)
    (rest : List QItem) (h : readLoop qs "" = (.fault e, d, rest)) :
    d = "" ∧ ∃ pre, qs = pre ++ QItem.fault e :: rest ∧
      ∀ q ∈ pre, q = QItem.chunk "" := by
  induction qs with
  | nil => simp [readLoop] at h
  | cons q r ih =>
      cases q with
      | fault f =>
          simp [readLoop] at h
          obtain ⟨hf, hd, hr⟩ := h
          subst hf; subst hr
          exact ⟨hd.symm, [], rfl, by simp⟩
      | chunk c =>
          by_cases hc : c = ""
          · subst hc
            simp [readLoop] at h
            obtain ⟨hd, pre, hqs, hall⟩ := ih h
            refine ⟨hd, QItem.chunk "" :: pre, by simp [hqs], ?_⟩
            intro q hq
            rcases List.mem_cons.mp hq with hq | hq
            · exact hq
            · exact hall q hq
          · simp [readLoop, hc] at h

/-- `readLoop` ending in `break` consumed empty chunks followed by the single
non-empty chunk that became `data`. -/
lemma readLoop_broke_end (qs : List QItem) (d : String) (rest : List QItem)
    (h : readLoop qs "" = (.broke, d, rest)) :
    d ≠ "" ∧ ∃ pre, qs = pre ++ QItem.chunk d :: rest ∧
      ∀ q ∈ pre, q = QItem.chunk "" := by
  induction qs with
  | nil => simp [readLoop] at h
  | cons q r ih =>
      cases q with
      | fault f => simp [readLoop] at h
      | chunk c =>
          by_cases hc : c = ""
          · subst hc
            simp [readLoop] at h
            obtain ⟨hd, pre, hqs, hall⟩ := ih h
            refine ⟨hd, QItem.chunk "" :: pre, by simp [hqs], ?_⟩
            intro q hq
            rcases List.mem_cons.mp hq with hq | hq
            · exact hq
            · exact hall q hq
          · simp [readLoop, hc] at h
            obtain ⟨hd, hr⟩ := h
            subst hr
            exact ⟨by simpa [hd.symm] using hc, [], by simp [hd.symm], by simp⟩

/-- C3: `read` consumes queue items in FIFO order and returns as soon as any
non-empty text has been obtained: a successful non-empty result is the
concatenation, in queue order, of the text of the chunks consumed during the
call (all of which but the last were empty), leaving the rest of the queue
untouched; an empty result or a read-timeout means the whole queue was
consumed and held only empty chunks; a dequeued fault is re-raised after only
empty chunks were consumed.  (The wait-bound itself is real time, abstracted
here: the queue list holds exactly the items the queue delivers within the
call's waits.) -/
theorem c3_read_queue_order (s : Session) (qs : List QItem) (tmo : Nat)
    (rex : Bool) (hcl : s._closed = false) :
    (∀ d rest, Session.read s qs tmo rex = (.ok d, rest) → d ≠ "" →
       ∃ pre, qs = pre ++ rest ∧ (∀ q ∈ pre, ∃ c, q = QItem.chunk c) ∧
         d = concatAll (pre.map textOf) ∧ ∀ q ∈ pre.dropLast, q = QItem.chunk "") ∧
    (∀ rest, Session.read s qs tmo rex = (.ok "", rest) →
       rest = [] ∧ rex = false ∧ ∀ q ∈ qs, q = QItem.chunk "") ∧
    (∀ e rest, Session.read s qs tmo rex = (.faultErr e, rest) →
       ∃ pre, qs = pre ++ QItem.fault e :: rest ∧ ∀ q ∈ pre, q = QItem.chunk "") ∧
    (∀ t0 rest, Session.read s qs tmo rex = (.timeoutErr t0, rest) →
       t0 = tmo ∧ rest = [] ∧ rex = true ∧ ∀ q ∈ qs, q = QItem.chunk "") := by
  rcases hL : readLoop qs "" with ⟨le, d0, rest0⟩
  cases le with
  | empty =>
      obtain ⟨hd0, hr0, hall⟩ := readLoop_empty_end qs d0 rest0 hL
      subst hd0; subst hr0
      cases rex with
      | true =>
          have hread : Session.read s qs tmo true = (.timeoutErr tmo, []) := by
            simp [Session.read, hcl, hL]
          refine ⟨?_, ?_, ?_, ?_⟩
          · intro d rest h hne; rw [hread] at h
            injection h with h1 h2; simp at h1
          · intro rest h; rw [hread] at h
            injection h with h1 h2; simp at h1
          · intro e rest h; rw [hread] at h
            injection h with h1 h2; simp at h1
          · intro t0 rest h; rw [hread] at h
            injection h with h1 h2
            injection h1 with h1
            exact ⟨h1.symm, h2.symm, rfl, hall⟩
      | false =>
          have hread : Session.read s qs tmo false = (.ok "", []) := by
            simp [Session.read, hcl, hL]
          refine ⟨?_, ?_, ?_, ?_⟩
          · intro d rest h hne; rw [hread] at h
            injection h with h1 h2
            injection h1 with h1
            exact absurd h1.symm hne
          · intro rest h; rw [hread] at h
            injection h with h1 h2
            exact ⟨h2.symm, rfl, hall⟩
          · intro e rest h; rw [hread] at h
            injection h with h1 h2; simp at h1
          · intro t0 rest h; rw [hread] at h
            injection h with h1 h2; simp at h1
  | fault e0 =>
      obtain ⟨hd0, pre, hqs, hall⟩ := readLoop_fault_end qs e0 d0 rest0 hL
      have hread : Session.read s qs tmo rex = (.faultErr e0, rest0) := by
        simp [Session.read, hcl, hL]
      refine ⟨?_, ?_, ?_, ?_⟩
      · intro d rest h hne; rw [hread] at h
        injection h with h1 h2; simp at h1
      · intro rest h; rw [hread] at h
        injection h with h1 h2; simp at h1
      · intro e rest h; rw [hread] at h
        injection h with h1 h2
        injection h1 with h1
        subst h1; subst h2
        exact ⟨pre, hqs, hall⟩
      · intro t0 rest h; rw [hread] at h
        injection h with h1 h2; simp at h1
  | broke =>
      obtain ⟨hd0, pre, hqs, hall⟩ := readLoop_broke_end qs d0 rest0 hL
      have hread : Session.read s qs tmo rex = (.ok d0, rest0) := by
        simp [Session.read, hcl, hL, hd0]
      refine ⟨?_, ?_, ?_, ?_⟩
      · intro d rest h hne; rw [hread] at h
        injection h with h1 h2
        injection h1 with h1
        subst h1; subst h2
        refine ⟨pre ++ [QItem.chunk d0], by simp [hqs], ?_, ?_, ?_⟩
        · intro q hq
          rcases List.mem_append.mp hq with hq | hq
          · exact ⟨"", hall q hq⟩
          · exact ⟨d0, by simpa using hq⟩
        · rw [List.map_append]
          simp only [List.map_cons, List.map_nil, textOf]
          rw [concatAll_all_empty_append]
          intro x hx
          obtain ⟨q, hq, hqx⟩ := List.mem_map.mp hx
          rw [hall q hq] at hqx
          simpa [textOf] using hqx.symm
        · rw [List.dropLast_concat]
          exact hall
      · intro rest h; rw [hread] at h
        injection h with h1 h2
        injection h1 with h1
        exact absurd h1 hd0
      · intro e rest h; rw [hread] at h
        injection h with h1 h2; simp at h1
      · intro t0 rest h; rw [hread] at h
        injection h with h1 h2; simp at h1

/-- `c3_read_queue_order` instantiated: queue `['', 'ab', 'c']` — `read`
consumes the empty chunk and `'ab'`, returns `"ab"` and leaves `['c']`. -/
theorem c3_witness :
    ∃ pre, [QItem.chunk "", QItem.chunk "ab", QItem.chunk "c"] =
        pre ++ [QItem.chunk "c"] ∧
      (∀ q ∈ pre, ∃ c, q = QItem.chunk c) ∧
      "ab" = concatAll (pre.map textOf) ∧
      ∀ q ∈ pre.dropLast, q = QItem.chunk "" :=
  (c3_read_queue_order Session.init
      [QItem.chunk "", QItem.chunk "ab", QItem.chunk "c"] 5 true rfl).1
    "ab" [QItem.chunk "c"] (by decide) (by decide)

/-- When the reader thread exits by re-raising, the fault it pushed is the
last item it put on the queue, preceded only by text chunks. -/
lemma readerRun_raised (k : Bool) (os : List ReadOutcome) (e : Exc)
    (h : (readerRun k os).2 = .raised e) :
    ∃ pre, (readerRun k os).1 = pre ++ [QItem.fault e] ∧
      ∀ q ∈ pre, ∃ t, q = QItem.chunk t := by
  induction os with
  | nil => simp [readerRun] at h
  | cons o rest ih =>
      cases o with
      | bytes t =>
          rcases hq : readerRun k rest with ⟨q, ex⟩
          rw [hq] at ih
          have hrw : readerRun k (ReadOutcome.bytes t :: rest) = (QItem.chunk t :: q, ex) := by
            simp [readerRun, hq]
          rw [hrw] at h ⊢
          obtain ⟨pre, hpre, hall⟩ := ih h
          replace hpre : q = pre ++ [QItem.fault e] := hpre
          refine ⟨QItem.chunk t :: pre, by simp [hpre], ?_⟩
          intro x hx
          rcases List.mem_cons.mp hx with hx | hx
          · exact ⟨t, hx⟩
          · exact hall x hx
      | oserr n =>
          by_cases hn : n = 5 ∨ n = 9 <;> simp [readerRun, hn] at h ⊢
          exact ⟨[], by simp [h.symm], by simp⟩
      | exc tag =>
          cases k <;> simp [readerRun] at h ⊢
          exact ⟨[], by simp [h.symm], by simp⟩

/-- When the reader thread exits cleanly (`return`), it did so after pushing
a fault, which is the last item on the queue. -/
lemma readerRun_returned (k : Bool) (os : List ReadOutcome)
    (h : (readerRun k os).2 = .returned) :
    ∃ f pre, (readerRun k os).1 = pre ++ [QItem.fault f] ∧
      ∀ q ∈ pre, ∃ t, q = QItem.chunk t := by
  induction os with
  | nil => simp [readerRun] at h
  | cons o rest ih =>
      cases o with
      | bytes t =>
          rcases hq : readerRun k rest with ⟨q, ex⟩
          rw [hq] at ih
          have hrw : readerRun k (ReadOutcome.bytes t :: rest) = (QItem.chunk t :: q, ex) := by
            simp [readerRun, hq]
          rw [hrw] at h ⊢
          obtain ⟨f, pre, hpre, hall⟩ := ih h
          replace hpre : q = pre ++ [QItem.fault f] := hpre
          refine ⟨f, QItem.chunk t :: pre, by simp [hpre], ?_⟩
          intro x hx
          rcases List.mem_cons.mp hx with hx | hx
          · exact ⟨t, hx⟩
          · exact hall x hx
      | oserr n =>
          exact ⟨.osError n, [], by simp [readerRun], by simp⟩
      | exc tag =>
          exact ⟨.other tag, [], by simp [readerRun], by simp⟩

/-- While the reader thread is still looping, everything it has put on the
queue is a text chunk. -/
lemma readerRun_running (k : Bool) (os : List ReadOutcome)
    (h : (readerRun k os).2 = .running) :
    ∀ i ∈ (readerRun k os).1, ∃ t, i = QItem.chunk t := by
  induction os with
  | nil => simp [readerRun]
  | cons o rest ih =>
      cases o with
      | bytes t =>
          rcases hq : readerRun k rest with ⟨q, ex⟩
          rw [hq] at ih
          have hrw : readerRun k (ReadOutcome.bytes t :: rest) = (QItem.chunk t :: q, ex) := by
            simp [readerRun, hq]
          rw [hrw] at h ⊢
          intro x hx
          rcases List.mem_cons.mp hx with hx | hx
          · exact ⟨t, hx⟩
          · exact ih h x hx
      | oserr n =>
          by_cases hn : n = 5 ∨ n = 9 <;> simp [readerRun, hn] at h
      | exc tag =>
          cases k <;> simp [readerRun] at h

/-- The reader thread re-raises an `OSError` only when its errno is not one
of the expected-shutdown errnos 5 (EIO) and 9 (EBADF). -/
lemma readerRun_raised_oserr (k : Bool) (os : List ReadOutcome) (n : Nat)
    (h : (readerRun k os).2 = .raised (.osError n)) : n ≠ 5 ∧ n ≠ 9 := by
  induction os with
  | nil => simp [readerRun] at h
  | cons o rest ih =>
      cases o with
      | bytes t =>
          rcases hq : readerRun k rest with ⟨q, ex⟩
          rw [hq] at ih
          have hrw : readerRun k (ReadOutcome.bytes t :: rest) = (QItem.chunk t :: q, ex) := by
            simp [readerRun, hq]
          rw [hrw] at h
          exact ih h
      | oserr m =>
          by_cases hn : m = 5 ∨ m = 9 <;> simp [readerRun, hn] at h
          subst h
          exact ⟨fun hc => hn (Or.inl hc), fun hc => hn (Or.inr hc)⟩
      | exc tag =>
          cases k <;> simp [readerRun] at h

/-- When the first failing outcome is an `OSError` with errno 5 or 9 (the
child/pty went away), the reader thread pushes the fault and terminates
cleanly. -/
lemma readerRun_eio_returns (k : Bool) (pre : List ReadOutcome) (n : Nat)
    (tail : List ReadOutcome) (hall : ∀ o ∈ pre, ∃ t, o = ReadOutcome.bytes t)
    (hn : n = 5 ∨ n = 9) :
    (readerRun k (pre ++ ReadOutcome.oserr n :: tail)).2 = .returned := by
  induction pre with
  | nil => simp [readerRun, hn]
  | cons o rest ih =>
      obtain ⟨t, ht⟩ := hall o (by simp)
      subst ht
      rcases hq : readerRun k (rest ++ ReadOutcome.oserr n :: tail) with ⟨q, ex⟩
      have := ih (fun x hx => hall x (by simp [hx]))
      rw [hq] at this
      simp [readerRun, hq, this]

/-- C7: every failure inside the reader task is pushed onto the handoff queue
as the final item before the task terminates, whether it then `return`s or
re-raises inside its own thread (never synchronously into the consumer); an
`OSError` whose errno signals the child/pty went away (5 or 9) makes the task
push the fault and terminate cleanly, and a re-raise happens only for other
errnos; the consumer's `read` re-raises a dequeued fault in the caller's
context. -/
theorem c7_reader_faults_via_queue (k : Bool) (os : List ReadOutcome) :
    (∀ e, (readerRun k os).2 = .raised e →
       ∃ pre, (readerRun k os).1 = pre ++ [QItem.fault e] ∧
         ∀ q ∈ pre, ∃ t, q = QItem.chunk t) ∧
    ((readerRun k os).2 = .returned →
       ∃ f pre, (readerRun k os).1 = pre ++ [QItem.fault f] ∧
         ∀ q ∈ pre, ∃ t, q = QItem.chunk t) ∧
    ((readerRun k os).2 = .running →
       ∀ i ∈ (readerRun k os).1, ∃ t, i = QItem.chunk t) ∧
    (∀ n, (readerRun k os).2 = .raised (.osError n) → n ≠ 5 ∧ n ≠ 9) ∧
    (∀ pre n tail, os = pre ++ ReadOutcome.oserr n :: tail →
       (∀ o ∈ pre, ∃ t, o = ReadOutcome.bytes t) → (n = 5 ∨ n = 9) →
       (readerRun k os).2 = .returned) ∧
    (∀ (s : Session) e rest t r, s._closed = false →
       Session.read s (QItem.fault e :: rest) t r = (.faultErr e, rest)) := by
  refine ⟨fun e h => readerRun_raised k os e h,
          fun h => readerRun_returned k os h,
          fun h => readerRun_running k os h,
          fun n h => readerRun_raised_oserr k os n h,
          ?_, ?_⟩
  · intro pre n tail hos hall hn
    rw [hos]
    exact readerRun_eio_returns k pre n tail hall hn
  · intro s e rest t r hcl
    simp [Session.read, hcl, readLoop]

/-- `c7_reader_faults_via_queue` instantiated: one successful read then an
`OSError` with errno 5 — the thread exits cleanly. -/
theorem c7_witness :
    (readerRun false [ReadOutcome.bytes "x", ReadOutcome.oserr 5]).2 =
      ReaderExit.returned :=
  (c7_reader_faults_via_queue false
      [ReadOutcome.bytes "x", ReadOutcome.oserr 5]).2.2.2.2.1
    [ReadOutcome.bytes "x"] 5 [] rfl
    (by intro o ho; exact ⟨"x", by simpa using ho⟩) (by left; rfl)

/-- Length of the retained buffer, an absent (`None`) or empty buffer
counting as zero. -/
def bufLen : Option String → Nat
  | none => 0
  | some b => b.length

/-- The logger-cursor invariant: `_logger_buffer_pos` never exceeds the
retained buffer's length. -/
def Inv (s : Session) : Prop := s._logger_buffer_pos ≤ bufLen s.buffer

/-- One public operation on a session, with the data its model needs:
the queue contents for `read`, the read-event trace for `expect`. -/
inductive Op where
  | opWrite (d : String) : Op
  | opSend (d : String) (eol : Option String) (delay : Option Nat) : Op
  | opRead (q : List QItem) (tmo : Nat) (rex : Bool) : Op
  | opExpect (pat : Pattern) (tmo : Option Nat) (probe : Bool)
      (evs : List ReadEvent) : Op
  | opClose (force : Bool) : Op
  | opTimeout (t : Option Nat) : Op
  | opEol (e : Option String) : Op
  | opLogger (lg : Option String) (pfx : String) : Op

/-- The session state after one public operation (the state an operation
that raises leaves behind: `write`/`send`/`read` mutate nothing before their
closed check, `expect` leaves its final state). -/
def applyOp (s : Session) : Op → Session
  | .opWrite d =>
      match Session.write s d with
      | .ok (s', _) => s'
      | .error _ => s
  | .opSend d e dl =>
      match Session.send s d e dl with
      | .ok (s', _) => s'
      | .error _ => s
  | .opRead _ _ _ => s
  | .opExpect pat tmo p evs => (Session.expect s pat tmo p evs).state
  | .opClose f => Session.close s f
  | .opTimeout t => (Session.timeout s t).1
  | .opEol e => (Session.eol s e).1
  | .opLogger lg pfx => (Session.logger s lg pfx).1

lemma inv_matchFinalize (s : Session) (buf : String) (a b : Nat) :
    Inv (matchFinalize s buf a b) := by
  simp [Inv, matchFinalize]

lemma loggerWrite_buffer (s : Session) (d : String) :
    (loggerWrite s d).buffer = s.buffer := by
  cases hl : s._logger <;> simp [loggerWrite, hl]

lemma inv_noMatchMirror (p : Bool) (s : Session) (buf : String)
    (hb : s.buffer = some buf) (hs : Inv s) : Inv (noMatchMirror p s buf) := by
  cases p with
  | true => simpa [noMatchMirror] using hs
  | false =>
      cases hl : s._logger with
      | none => simpa [noMatchMirror, hl] using hs
      | some l => simp [noMatchMirror, hl, loggerWrite, Inv, bufLen, hb]

lemma inv_timeoutFinalize (pat : Pattern) (t : Option Nat) (p : Bool)
    (s : Session) (rest : List ReadEvent) (hs : Inv s) :
    Inv (timeoutFinalize pat t p s rest).state := by
  cases p with
  | false => simp [timeoutFinalize, Inv]
  | true =>
      simp [timeoutFinalize, Inv]
      exact hs

lemma inv_appendBuffer (s : Session) (d : String) (hs : Inv s) :
    Inv (appendBuffer s d) := by
  cases hb : s.buffer with
  | none =>
      have h0 : s._logger_buffer_pos = 0 := by
        simpa [Inv, hb, bufLen] using hs
      simp [appendBuffer, hb, Inv, bufLen, h0]
  | some b =>
      by_cases hbe : b = ""
      · subst hbe
        have : s._logger_buffer_pos = 0 := by
          simpa [Inv, hb, bufLen] using hs
        simp [appendBuffer, hb, Inv, bufLen, this]
      · have h1 : s._logger_buffer_pos ≤ b.length := by
          simpa [Inv, hb, bufLen] using hs
        simp [appendBuffer, hb, hbe, Inv, bufLen, String.length_append]
        omega

/-- Both components of an `expectSearch` step preserve the cursor
invariant. -/
lemma expectSearch_inv (pat : Pattern) (p : Bool) (s : Session) (hs : Inv s) :
    (∀ s', expectSearch pat p s = .inl s' → Inv s') ∧
    (∀ s' r, expectSearch pat p s = .inr (s', r) → Inv s') := by
  cases hb : s.buffer with
  | none =>
      refine ⟨?_, ?_⟩
      · intro s' h
        simp [expectSearch, hb] at h
        exact h ▸ hs
      · intro s' r h
        simp [expectSearch, hb] at h
  | some buf =>
      cases hm : pat buf with
      | none =>
          refine ⟨?_, ?_⟩
          · intro s' h
            simp [expectSearch, hb, hm] at h
            exact h ▸ inv_noMatchMirror p s buf hb hs
          · intro s' r h
            simp [expectSearch, hb, hm] at h
      | some ab =>
          refine ⟨?_, ?_⟩
          · intro s' h
            simp [expectSearch, hb, hm] at h
          · intro s' r h
            simp [expectSearch, hb, hm] at h
            exact h.1 ▸ inv_matchFinalize s buf ab.1 ab.2

/-- The `expect` loop preserves the cursor invariant. -/
lemma expectLoop_inv (pat : Pattern) (t : Option Nat) (p : Bool) :
    ∀ (evs : List ReadEvent) (s : Session) (tl : Nat), Inv s →
      Inv (expectLoop pat t p s tl evs).state := by
  intro evs
  induction evs with
  | nil =>
      intro s tl hs
      rcases hE : expectSearch pat p s with s' | ⟨s', r⟩
      · have hs' := (expectSearch_inv pat p s hs).1 s' hE
        by_cases hc : s'._closed <;> simp [expectLoop, hE, hc] <;> exact hs'
      · have hs' := (expectSearch_inv pat p s hs).2 s' r hE
        simpa [expectLoop, hE] using hs'
  | cons ev rest ih =>
      intro s tl hs
      rcases hE : expectSearch pat p s with s' | ⟨s', r⟩
      · have hs' := (expectSearch_inv pat p s hs).1 s' hE
        by_cases hc : s'._closed
        · simp [expectLoop, hE, hc]
          exact hs'
        · cases ev with
          | rfault e =>
              simp [expectLoop, hE, hc]
              exact hs'
          | rtimeout el =>
              by_cases hz : tl - el = 0 <;> simp [expectLoop, hE, hc, hz]
              · exact inv_timeoutFinalize pat t p s' rest hs'
              · exact ih s' (tl - el) hs'
          | data d el =>
              by_cases hd : d = "" <;> simp [expectLoop, hE, hc, hd]
              · exact ih s' (tl - el) hs'
              · exact ih (appendBuffer s' d) (tl - el) (inv_appendBuffer s' d hs')
      · have hs' := (expectSearch_inv pat p s hs).2 s' r hE
        simpa [expectLoop, hE] using hs'

/-- Every public operation preserves the cursor invariant. -/
lemma applyOp_inv (s : Session) (op : Op) (hs : Inv s) : Inv (applyOp s op) := by
  cases op with
  | opWrite d =>
      by_cases h : s._closed <;> simp [applyOp, Session.write, h] <;> exact hs
  | opSend d e dl =>
      by_cases h : s._closed <;>
        simp [applyOp, Session.send, Session.write, h] <;> exact hs
  | opRead q tmo rex => exact hs
  | opExpect pat tmo p evs =>
      exact expectLoop_inv pat _ p evs _ _ hs
  | opClose f =>
      by_cases h : s._closed
      · simpa [applyOp, Session.close, h] using hs
      · cases f <;> cases hl : s._logger <;>
          simp [applyOp, Session.close, h, hl, Inv] <;>
            simpa [Inv] using hs
  | opTimeout t =>
      cases t with
      | none => exact hs
      | some v =>
          by_cases hv : v = 0 <;> simp [applyOp, Session.timeout, hv] <;>
            simpa [Inv] using hs
  | opEol e =>
      cases e with
      | none => exact hs
      | some v =>
          by_cases hv : v = "" <;> simp [applyOp, Session.eol, hv] <;>
            simpa [Inv] using hs
  | opLogger lg pfx =>
      cases lg with
      | none => exact hs
      | some sink => simpa [applyOp, Session.logger, Inv] using hs

lemma foldl_applyOp_inv (ops : List Op) :
    ∀ s, Inv s → Inv (ops.foldl applyOp s) := by
  induction ops with
  | nil => intro s hs; exact hs
  | cons op rest ih =>
      intro s hs
      exact ih (applyOp s op) (applyOp_inv s op hs)

/-- C5: along every sequence of public operations from a fresh session, the
logger cursor never exceeds the retained buffer's length (an absent buffer
counting as length zero); and the cursor is reset to zero whenever the
buffer is replaced or cleared — by the match-truncation finalize and by the
non-probe timeout finalize (which also clears the buffer). -/
theorem c5_cursor_le_buffer (ops : List Op) (s : Session) (buf : String)
    (a b : Nat) (pat : Pattern) (t : Option Nat) (rest : List ReadEvent) :
    Inv (ops.foldl applyOp Session.init) ∧
    (matchFinalize s buf a b)._logger_buffer_pos = 0 ∧
    (timeoutFinalize pat t false s rest).state._logger_buffer_pos = 0 ∧
    (timeoutFinalize pat t false s rest).state.buffer = none := by
  refine ⟨foldl_applyOp_inv ops Session.init ?_, ?_, ?_, ?_⟩
  · simp [Inv, Session.init, bufLen]
  · simp [matchFinalize]
  · simp [timeoutFinalize]
  · simp [timeoutFinalize]

end UExpect
